import Mathlib

/-!
Verification of the decoding loop of `src/generate.py` (function `generate`,
lines 16-71), a nanoGPT-style autoregressive sampler.

Embedding choices, each justified against the source:

* Token ids are `Nat`; a token sequence is `List Nat`.
* The scorer (`model`) is a function `List Nat → List ℚ` returning the
  last-position logit row: line 54 keeps only `logits[0, -1]`, one rational
  logit per vocabulary entry.
* Logits after top-k masking may be negative infinity (line 59 writes
  `-float("Inf")`), so masked logits live in `XLogit` = ℚ extended with `ninf`.
* `torch.nn.functional.softmax` (line 61) is `exp xᵢ / Σ exp xⱼ` with
  `exp (-∞) = 0`.  The exponential is an abstract parameter
  `expF : ℚ → ℚ`; every theorem that depends on probabilities assumes only
  its positivity (`∀ x, 0 < expF x`), which is the one property of `exp`
  the loop relies on.
* `torch.multinomial` (line 62) consumes the process-wide random stream; it
  is modelled by an explicit `sampler : Nat → List ℚ → Nat` mapping the step
  index (position in the random stream) and the probability vector to the
  drawn vocabulary index.
* The preallocated buffer of lines 41-43 is represented by its written
  prefix: positions at or beyond the cursor `t` are never read before being
  written (line 48 reads only `idx[:t]`) and never escape (lines 69 and 71
  return only written positions), so the growing list is observationally
  identical to the buffer.
* `max_new_tokens` and `max_seq_length` are `Int`, as Python ints can be
  negative.  `torch.empty(T_new)` (line 41) raises for `T_new < 0` and the
  copy `empty[:T] = idx` (line 42) raises a shape mismatch for
  `T ≤ T_new < T`; together these raise exactly when `max_new_tokens < 0`,
  modelled by `Except.error` before the loop.
-/

namespace LitStableLM

/-- A logit that is either negative infinity (written by top-k masking,
line 59 of `src/generate.py`) or a finite rational. -/
inductive XLogit where
  | ninf : XLogit
  | fin : ℚ → XLogit
deriving DecidableEq, Repr

/-- `exp` extended to masked logits: `exp (-∞) = 0`, finite logits go through
the abstract exponential `expF`. -/
def XLogit.expo (expF : ℚ → ℚ) : XLogit → ℚ
  | XLogit.ninf => 0
  | XLogit.fin q => expF q

/-- Python slice `l[-m:]` for an `Int` argument `m` (line 50 of
`src/generate.py` writes `idx_cond[-max_seq_length:]`): for `m > 0` the last
`m` elements, for `m = 0` the whole list (Python `-0` is `0`), for `m < 0`
the slice `l[(-m):]`. -/
def sliceLast (l : List Nat) (m : Int) : List Nat :=
  if 0 < m then l.drop (l.length - m.toNat)
  else if m = 0 then l
  else l.drop (-m).toNat

/-- The value `v[-1]` of `torch.topk(logits, k)` (line 58 of
`src/generate.py`): the `k`-th largest element, counting multiplicity (sort
descending, take index `k - 1`). -/
def kthLargest (l : List ℚ) (k : Nat) : ℚ :=
  ((List.insertionSort (fun a b => b ≤ a) l).drop (k - 1)).headD 0

/-- Top-k masking (lines 57-59 of `src/generate.py`): every logit strictly
below the `min top_k (length)`-th largest is replaced by negative infinity;
all other entries (ties at the boundary included) stay finite. -/
def maskTopK (logits : List ℚ) (top_k : Nat) : List XLogit :=
  let v_last := kthLargest logits (min top_k logits.length)
  logits.map (fun x => if x < v_last then XLogit.ninf else XLogit.fin x)

/-- Softmax over masked logits (line 61 of `src/generate.py`):
`expo xᵢ / Σⱼ expo xⱼ`, with `expo (-∞) = 0`. -/
def softmaxQ (expF : ℚ → ℚ) (l : List XLogit) : List ℚ :=
  let den := (l.map (XLogit.expo expF)).sum
  l.map (fun x => XLogit.expo expF x / den)

/-- The probability vector computed at one loop step from the scorer output
on the context `idx_cond` (lines 53-61 of `src/generate.py`): scale the
last-position logits by `1 / temperature`, mask to top-k if `top_k` is set,
then softmax. -/
def stepProbs (model : List Nat → List ℚ) (expF : ℚ → ℚ) (temperature : ℚ)
    (top_k : Option Nat) (idx_cond : List Nat) : List ℚ :=
  let logits := (model idx_cond).map (fun z => z / temperature)
  let masked :=
    match top_k with
    | none => logits.map XLogit.fin
    | some k => maskTopK logits k
  softmaxQ expF masked

/-- The context window of one loop step (lines 48-50 of `src/generate.py`):
the written part `idx[:t]` of the buffer, truncated to its last
`max_seq_length` tokens when the *original prompt length* `T` (not the
current length) exceeds `max_seq_length`. -/
def condCtx (T : Nat) (max_seq_length : Int) (seq : List Nat) : List Nat :=
  if (T : Int) ≤ max_seq_length then seq else sliceLast seq max_seq_length

/-- The generation loop (lines 46-71 of `src/generate.py`).  `seq` is the
written prefix `idx[:t]` of the buffer (so `t = seq.length`), `fuel` the
remaining iterations of `for t in range(T, T_new)`, and `T` the original
prompt length used by the truncation trigger on line 50.  Returns the
resulting sequence together with the trace of contexts passed to the scorer,
one per executed step. -/
def genLoop (model : List Nat → List ℚ) (expF : ℚ → ℚ)
    (sampler : Nat → List ℚ → Nat) (T : Nat) (max_seq_length : Int)
    (temperature : ℚ) (top_k : Option Nat) (eos_id : Option Nat) :
    Nat → List Nat → List Nat × List (List Nat)
  | 0, seq => (seq, [])
  | fuel + 1, seq =>
    let idx_cond := condCtx T max_seq_length seq
    let idx_next :=
      sampler seq.length (stepProbs model expF temperature top_k idx_cond)
    if eos_id = some idx_next then (seq ++ [idx_next], [idx_cond])
    else
      let rest := genLoop model expF sampler T max_seq_length temperature
        top_k eos_id fuel (seq ++ [idx_next])
      (rest.1, idx_cond :: rest.2)

/-- `generate` of `src/generate.py` (lines 16-71), instrumented with the
trace of contexts passed to the scorer.  Fails (as `torch` raises on lines
41-42) exactly when `max_new_tokens` is negative; otherwise runs the loop
for `max_new_tokens` steps starting from the prompt. -/
def generateT (model : List Nat → List ℚ) (expF : ℚ → ℚ)
    (sampler : Nat → List ℚ → Nat) (idx : List Nat) (max_new_tokens : Int)
    (max_seq_length : Int) (temperature : ℚ) (top_k : Option Nat)
    (eos_id : Option Nat) : Except String (List Nat × List (List Nat)) :=
  if max_new_tokens < 0 then
    Except.error "cannot allocate output buffer of negative length"
  else
    Except.ok (genLoop model expF sampler idx.length max_seq_length
      temperature top_k eos_id max_new_tokens.toNat idx)

/-- The token sequence returned by `generate`. -/
def generate (model : List Nat → List ℚ) (expF : ℚ → ℚ)
    (sampler : Nat → List ℚ → Nat) (idx : List Nat) (max_new_tokens : Int)
    (max_seq_length : Int) (temperature : ℚ) (top_k : Option Nat)
    (eos_id : Option Nat) : Except String (List Nat) :=
  Except.map Prod.fst (generateT model expF sampler idx max_new_tokens
    max_seq_length temperature top_k eos_id)

/-- The contexts passed to the scorer during a run of `generate`, in order,
one per executed loop step. -/
def scorerTrace (model : List Nat → List ℚ) (expF : ℚ → ℚ)
    (sampler : Nat → List ℚ → Nat) (idx : List Nat) (max_new_tokens : Int)
    (max_seq_length : Int) (temperature : ℚ) (top_k : Option Nat)
    (eos_id : Option Nat) : Except String (List (List Nat)) :=
  Except.map Prod.snd (generateT model expF sampler idx max_new_tokens
    max_seq_length temperature top_k eos_id)

section StructuralLemmas

variable (model : List Nat → List ℚ) (expF : ℚ → ℚ)
  (sampler : Nat → List ℚ → Nat) (T : Nat) (msl : Int) (τ : ℚ)
  (tk eos : Option Nat)

/-- Structural fact about the loop: the resulting sequence extends the
starting one, and the number of appended tokens equals the number of traced
scorer invocations. -/
theorem genLoop_extends :
    ∀ (fuel : Nat) (seq : List Nat),
      ∃ tl : List Nat,
        (genLoop model expF sampler T msl τ tk eos fuel seq).1 = seq ++ tl ∧
        tl.length = (genLoop model expF sampler T msl τ tk eos fuel seq).2.length := by
  intro fuel
  induction fuel with
  | zero => exact fun seq => ⟨[], by simp [genLoop]⟩
  | succ n ih =>
    intro seq
    simp only [genLoop]
    by_cases h :
        eos = some (sampler seq.length (stepProbs model expF τ tk (condCtx T msl seq)))
    · rw [if_pos h]
      exact ⟨[sampler seq.length (stepProbs model expF τ tk (condCtx T msl seq))],
        by simp⟩
    · rw [if_neg h]
      obtain ⟨tl, h1, h2⟩ :=
        ih (seq ++ [sampler seq.length (stepProbs model expF τ tk (condCtx T msl seq))])
      refine ⟨sampler seq.length (stepProbs model expF τ tk (condCtx T msl seq)) :: tl,
        ?_, ?_⟩
      · simpa using h1
      · simpa using h2

/-- With `eos_id = None` the early return of line 69 is unreachable, so the
loop consumes all its fuel and appends exactly one token per step. -/
theorem genLoop_none_length :
    ∀ (fuel : Nat) (seq : List Nat),
      (genLoop model expF sampler T msl τ tk none fuel seq).1.length
        = seq.length + fuel := by
  intro fuel
  induction fuel with
  | zero => intro seq; simp [genLoop]
  | succ n ih =>
    intro seq
    simp only [genLoop, reduceCtorEq, if_false]
    rw [ih]
    simp
    omega

/-- Every traced context is `condCtx` applied to the sequence as it stood at
that step, i.e. to the corresponding prefix of the final sequence. -/
theorem genLoop_trace_eq :
    ∀ (fuel : Nat) (seq : List Nat) (i : Nat),
      i < (genLoop model expF sampler T msl τ tk eos fuel seq).2.length →
      (genLoop model expF sampler T msl τ tk eos fuel seq).2[i]?
        = some (condCtx T msl
            ((genLoop model expF sampler T msl τ tk eos fuel seq).1.take
              (seq.length + i))) := by
  intro fuel
  induction fuel with
  | zero => intro seq i hi; simp [genLoop] at hi
  | succ n ih =>
    intro seq i hi
    simp only [genLoop] at hi ⊢
    by_cases h :
        eos = some (sampler seq.length (stepProbs model expF τ tk (condCtx T msl seq)))
    · rw [if_pos h] at hi ⊢
      simp only [List.length_cons, List.length_nil] at hi
      interval_cases i
      · simp [List.take_left']
    · rw [if_neg h] at hi ⊢
      simp only [List.length_cons] at hi
      rcases i with _ | j
      · obtain ⟨tl, h1, _⟩ :=
          genLoop_extends model expF sampler T msl τ tk eos n
            (seq ++ [sampler seq.length (stepProbs model expF τ tk (condCtx T msl seq))])
        simp only [List.getElem?_cons_zero, Nat.add_zero, h1]
        rw [List.append_assoc, List.take_left]
      · simp only [List.getElem?_cons_succ]
        rw [ih _ j (by omega)]
        simp only [List.length_append, List.length_cons, List.length_nil]
        congr 3
        omega

end StructuralLemmas

/-- C6: for every prompt, scorer, sampler, temperature, top-k and eos
setting, calling `generate` with `max_new_tokens = 0` returns the prompt
unchanged (same tokens, same length) and the scorer is never invoked (the
trace of scorer contexts is empty). -/
theorem zero_new_tokens_identity (model : List Nat → List ℚ) (expF : ℚ → ℚ)
    (sampler : Nat → List ℚ → Nat) (idx : List Nat) (msl : Int) (τ : ℚ)
    (tk eos : Option Nat) :
    generateT model expF sampler idx 0 msl τ tk eos = Except.ok (idx, []) := rfl

/-- C1: for every valid input with `eos_id = None` (prompt non-empty,
`max_new_tokens ≥ 0`), `generate` succeeds and returns a sequence of length
exactly `T + max_new_tokens` whose first `T` elements are the input prompt
exactly. -/
theorem generate_length_invariant (model : List Nat → List ℚ) (expF : ℚ → ℚ)
    (sampler : Nat → List ℚ → Nat) (idx : List Nat) (mnt msl : Int) (τ : ℚ)
    (tk : Option Nat) (hT : idx ≠ []) (hmnt : 0 ≤ mnt) :
    Except.map (fun out => ((out.length : Int), out.take idx.length))
      (generate model expF sampler idx mnt msl τ tk none)
      = Except.ok ((idx.length : Int) + mnt, idx) := by
  unfold generate generateT
  rw [if_neg (by omega)]
  have hlen := genLoop_none_length model expF sampler idx.length msl τ tk mnt.toNat idx
  obtain ⟨tl, h1, _⟩ :=
    genLoop_extends model expF sampler idx.length msl τ tk none mnt.toNat idx
  simp only [Except.map, hlen]
  rw [h1, List.take_left]
  have : ((idx.length + mnt.toNat : Nat) : Int) = (idx.length : Int) + mnt := by
    omega
  rw [this]

/-- Witness for C1 at the spec §8 example scenario: prompt `[5, 9, 2]`,
`max_new_tokens = 2`, `max_seq_length = 10`, stub sampler returning 7. -/
theorem generate_length_invariant_witness :
    Except.map (fun out => ((out.length : Int), out.take ([5, 9, 2] : List Nat).length))
      (generate (fun _ => [0]) (fun _ => 1) (fun _ _ => 7) [5, 9, 2] 2 10 1 none none)
      = Except.ok ((([5, 9, 2] : List Nat).length : Int) + 2, [5, 9, 2]) :=
  generate_length_invariant (fun _ => [0]) (fun _ => 1) (fun _ _ => 7) [5, 9, 2]
    2 10 1 none (by decide) (by decide)

/-- C8: determinism under fixed randomness — two runs of `generate` on the
same inputs with samplers that agree on every (step, probability-vector)
pair produce exactly the same output. -/
theorem generate_deterministic (model : List Nat → List ℚ) (expF : ℚ → ℚ)
    (s1 s2 : Nat → List ℚ → Nat) (idx : List Nat) (mnt msl : Int) (τ : ℚ)
    (tk eos : Option Nat) (h : ∀ t p, s1 t p = s2 t p) :
    generate model expF s1 idx mnt msl τ tk eos
      = generate model expF s2 idx mnt msl τ tk eos := by
  have hs : s1 = s2 := funext fun t => funext fun p => h t p
  rw [hs]

/-- Witness for C8 with a concrete stubbed random stream. -/
theorem generate_deterministic_witness :
    generate (fun _ => [0]) (fun _ => 1) (fun t _ => t + 1) [5, 9, 2] 2 10 1 none none
      = generate (fun _ => [0]) (fun _ => 1) (fun t _ => t + 1) [5, 9, 2] 2 10 1 none none :=
  generate_deterministic (fun _ => [0]) (fun _ => 1) (fun t _ => t + 1)
    (fun t _ => t + 1) [5, 9, 2] 2 10 1 none none (fun _ _ => rfl)

/-- C9: `generate` never alters the caller's prompt — for every run (any
eos setting, any sampler, any scorer) with `max_new_tokens ≥ 0` it succeeds
and its freshly built output begins with the prompt verbatim, the generated
tokens strictly following it.  All remaining state named by the claim is
explicit in the embedding: the random stream is the `sampler` argument and
the per-step logit and probability vectors are local values, so no other
mutation exists. -/
theorem generate_preserves_prompt (model : List Nat → List ℚ) (expF : ℚ → ℚ)
    (sampler : Nat → List ℚ → Nat) (idx : List Nat) (mnt msl : Int) (τ : ℚ)
    (tk eos : Option Nat) (hmnt : 0 ≤ mnt) :
    Except.map (fun out => out.take idx.length)
      (generate model expF sampler idx mnt msl τ tk eos) = Except.ok idx := by
  unfold generate generateT
  rw [if_neg (by omega)]
  obtain ⟨tl, h1, _⟩ :=
    genLoop_extends model expF sampler idx.length msl τ tk eos mnt.toNat idx
  simp only [Except.map, h1, List.take_left]

/-- Witness for C9 with an eos id set and a sampler that triggers it. -/
theorem generate_preserves_prompt_witness :
    Except.map (fun out => out.take ([5, 9, 2] : List Nat).length)
      (generate (fun _ => [0]) (fun _ => 1) (fun _ _ => 7) [5, 9, 2] 4 10 1 none (some 7))
      = Except.ok [5, 9, 2] :=
  generate_preserves_prompt (fun _ => [0]) (fun _ => 1) (fun _ _ => 7) [5, 9, 2]
    4 10 1 none (some 7) (by decide)

/-- C2 evaluated at a failing input: prompt `[1, 2]` (so `T = 2`),
`max_seq_length = 3`, `max_new_tokens = 3`, stub sampler returning 7.  The
truncation trigger of line 50 compares `T = 2 ≤ 3` and therefore never
truncates, so the third scorer call receives the context `[1, 2, 7, 7]` of
length 4, exceeding `max_seq_length = 3` — contradicting the claimed
invariant that the context never exceeds `max_seq_length`. -/
theorem scorer_context_overflow :
    scorerTrace (fun _ => [0]) (fun _ => 1) (fun _ _ => 7) [1, 2] 3 3 1 none none
        = Except.ok [[1, 2], [1, 2, 7], [1, 2, 7, 7]] ∧
    Except.map (fun tr => tr.map List.length)
        (scorerTrace (fun _ => [0]) (fun _ => 1) (fun _ _ => 7) [1, 2] 3 3 1 none none)
        = Except.ok [2, 3, 4] :=
  ⟨rfl, rfl⟩

/-- C7 counterexample: with an empty prompt (`T = 0`), temperature `0` and
`max_seq_length = 0` — all invalid parameterizations per the claim —
`generate` raises no validation error at all: it enters the loop and
invokes the scorer once (on the empty context), returning normally.  This
refutes the claim that invalid parameterizations fail fast before the
scorer is ever invoked. -/
theorem invalid_params_reach_scorer :
    generateT (fun _ => [0]) (fun _ => 1) (fun _ _ => 7) [] 1 0 0 none none
      = Except.ok ([7], [[]]) := rfl

/-- C7 amended: `generate` performs no parameter validation.  For every
input with `max_new_tokens ≥ 1` — including an empty prompt, non-positive
temperature and non-positive `max_seq_length` — it enters the loop and
invokes the scorer (the context trace is non-empty); the only failure
raised before the loop is the buffer-allocation error for negative
`max_new_tokens`, which occurs before the scorer is invoked but is not a
descriptive parameter check. -/
theorem generate_no_validation (model : List Nat → List ℚ) (expF : ℚ → ℚ)
    (sampler : Nat → List ℚ → Nat) (idx : List Nat) (mnt mneg msl : Int)
    (τ : ℚ) (tk eos : Option Nat) (hmnt : 1 ≤ mnt) (hneg : mneg < 0) :
    Except.map (fun p => p.2.isEmpty)
        (generateT model expF sampler idx mnt msl τ tk eos) = Except.ok false ∧
    generateT model expF sampler idx mneg msl τ tk eos
        = Except.error "cannot allocate output buffer of negative length" := by
  constructor
  · unfold generateT
    rw [if_neg (by omega)]
    obtain ⟨f, hf⟩ : ∃ f, mnt.toNat = f + 1 := ⟨mnt.toNat - 1, by omega⟩
    rw [hf]
    simp only [genLoop, Except.map]
    by_cases h :
        eos = some (sampler idx.length (stepProbs model expF τ tk (condCtx idx.length msl idx)))
    · rw [if_pos h]; rfl
    · rw [if_neg h]; rfl
  · unfold generateT
    rw [if_pos hneg]

/-- Witness for C7 (amended) with all of the claim's invalid parameters at
once: empty prompt, temperature 0, `max_seq_length = 0`. -/
theorem generate_no_validation_witness :
    Except.map (fun p => p.2.isEmpty)
        (generateT (fun _ => [0]) (fun _ => 1) (fun _ _ => 7) [] 1 0 0 none none)
        = Except.ok false ∧
    generateT (fun _ => [0]) (fun _ => 1) (fun _ _ => 7) [] (-1) 0 0 none none
        = Except.error "cannot allocate output buffer of negative length" :=
  generate_no_validation (fun _ => [0]) (fun _ => 1) (fun _ _ => 7) [] 1 (-1)
    0 0 none none (by decide) (by decide)

/-- C10: an `eos_id` token occurring inside the prompt never stops
generation — for every prompt containing `eos_id` and every
`max_new_tokens ≥ 1`, the run still invokes the scorer (non-empty context
trace) and samples at step `T` (the output is strictly longer than the
prompt); only tokens sampled during the loop are compared against
`eos_id`. -/
theorem eos_in_prompt_ignored (model : List Nat → List ℚ) (expF : ℚ → ℚ)
    (sampler : Nat → List ℚ → Nat) (idx : List Nat) (mnt msl : Int) (τ : ℚ)
    (tk : Option Nat) (e : Nat) (he : e ∈ idx) (hmnt : 1 ≤ mnt) :
    Except.map (fun p => (p.2.isEmpty, decide (idx.length < p.1.length)))
      (generateT model expF sampler idx mnt msl τ tk (some e))
      = Except.ok (false, true) := by
  unfold generateT
  rw [if_neg (by omega)]
  obtain ⟨f, hf⟩ : ∃ f, mnt.toNat = f + 1 := ⟨mnt.toNat - 1, by omega⟩
  rw [hf]
  simp only [genLoop, Except.map]
  by_cases h :
      some e = some (sampler idx.length (stepProbs model expF τ tk (condCtx idx.length msl idx)))
  · rw [if_pos h]; simp
  · rw [if_neg h]
    obtain ⟨tl, h1, _⟩ :=
      genLoop_extends model expF sampler idx.length msl τ tk (some e) f
        (idx ++ [sampler idx.length (stepProbs model expF τ tk (condCtx idx.length msl idx))])
    simp [h1]

/-- Witness for C10: the prompt `[9]` contains the eos id 9, yet the scorer
is invoked and a token is sampled at step `T = 1`. -/
theorem eos_in_prompt_ignored_witness :
    Except.map (fun p => (p.2.isEmpty, decide (([9] : List Nat).length < p.1.length)))
      (generateT (fun _ => [0]) (fun _ => 1) (fun _ _ => 0) [9] 1 10 1 none (some 9))
      = Except.ok (false, true) :=
  eos_in_prompt_ignored (fun _ => [0]) (fun _ => 1) (fun _ _ => 0) [9] 1 10 1
    none 9 (by decide) (by decide)

/-- Helper for C4: running the loop with a stubbed sampler `fun t _ => f t`
whose first eos hit (relative to the current cursor) is after `j` steps
appends exactly `j` non-eos tokens and then the eos token, stopping
there. -/
theorem genLoop_eos_hit (model : List Nat → List ℚ) (expF : ℚ → ℚ) (T : Nat)
    (msl : Int) (τ : ℚ) (tk : Option Nat) (f : Nat → Nat) (e : Nat) :
    ∀ (j fuel : Nat) (seq : List Nat), j < fuel →
      (∀ t, seq.length ≤ t → t < seq.length + j → f t ≠ e) →
      f (seq.length + j) = e →
      ∃ mid : List Nat,
        (genLoop model expF (fun t _ => f t) T msl τ tk (some e) fuel seq).1
          = (seq ++ mid) ++ [e] ∧ mid.length = j := by
  intro j
  induction j with
  | zero =>
    intro fuel seq hf _ he
    obtain ⟨n, rfl⟩ : ∃ n, fuel = n + 1 := ⟨fuel - 1, by omega⟩
    rw [Nat.add_zero] at he
    simp only [genLoop]
    rw [if_pos (by rw [he])]
    exact ⟨[], by simp [he], rfl⟩
  | succ j ih =>
    intro fuel seq hf hne he
    obtain ⟨n, rfl⟩ : ∃ n, fuel = n + 1 := ⟨fuel - 1, by omega⟩
    have hstep : f seq.length ≠ e := hne seq.length le_rfl (by omega)
    simp only [genLoop]
    rw [if_neg (fun hc => hstep (Option.some.inj hc).symm)]
    have hne2 : ∀ t, (seq ++ [f seq.length]).length ≤ t →
        t < (seq ++ [f seq.length]).length + j → f t ≠ e := by
      intro t ht1 ht2
      simp only [List.length_append, List.length_cons, List.length_nil] at ht1 ht2
      exact hne t (by omega) (by omega)
    have he2 : f ((seq ++ [f seq.length]).length + j) = e := by
      simp only [List.length_append, List.length_cons, List.length_nil]
      have harg : seq.length + 1 + j = seq.length + (j + 1) := by omega
      rw [harg]
      exact he
    obtain ⟨mid, h1, h2⟩ := ih n (seq ++ [f seq.length]) (by omega) hne2 he2
    refine ⟨f seq.length :: mid, ?_, by simp [h2]⟩
    simpa using h1

/-- C4: with `eos_id` set and a stubbed sampler whose draws are `f`, if the
first eos draw in the generation window happens at step `k`
(`T ≤ k < T + max_new_tokens`), then `generate` stops immediately: the
output has length exactly `k + 1` and its final element (position `k`) is
the eos token.  Positions beyond `k` are never produced. -/
theorem eos_stops_generation (model : List Nat → List ℚ) (expF : ℚ → ℚ)
    (idx : List Nat) (mnt msl : Int) (τ : ℚ) (tk : Option Nat)
    (f : Nat → Nat) (e k : Nat)
    (hTk : idx.length ≤ k) (hk : (k : Int) < idx.length + mnt)
    (hke : f k = e) (hbefore : ∀ t, idx.length ≤ t → t < k → f t ≠ e) :
    Except.map (fun out => (out.length, out.getLast?))
      (generate model expF (fun t _ => f t) idx mnt msl τ tk (some e))
      = Except.ok (k + 1, some e) := by
  unfold generate generateT
  rw [if_neg (by omega)]
  obtain ⟨mid, h1, h2⟩ :=
    genLoop_eos_hit model expF idx.length msl τ tk f e (k - idx.length)
      mnt.toNat idx (by omega)
      (fun t ht1 ht2 => hbefore t ht1 (by omega))
      (by
        have harg : idx.length + (k - idx.length) = k := by omega
        rw [harg]
        exact hke)
  have hlen : ((idx ++ mid) ++ [e]).length = k + 1 := by
    simp only [List.length_append, List.length_cons, List.length_nil, h2]
    omega
  simp only [Except.map, h1, hlen, List.getLast?_concat]

/-- Witness for C4: prompt `[1, 2, 3]` (`T = 3`), stub sampler drawing 7
until it draws the eos id 9 at step `k = 4`; the output stops at length 5
with final element 9. -/
theorem eos_stops_generation_witness :
    Except.map (fun out => (out.length, out.getLast?))
      (generate (fun _ => [0]) (fun _ => 1)
        (fun t _ => (fun s => if s = 4 then 9 else 7) t) [1, 2, 3] 5 10 1 none (some 9))
      = Except.ok (4 + 1, some 9) :=
  eos_stops_generation (fun _ => [0]) (fun _ => 1) [1, 2, 3] 5 10 1 none
    (fun s => if s = 4 then 9 else 7) 9 4 (by decide) (by decide) (by decide)
    (fun t ht1 ht2 => by simp [show t ≠ 4 by omega])

/-- The `k`-th largest element of a list is one of its elements, for
`1 ≤ k ≤ length`. -/
theorem kthLargest_mem (l : List ℚ) (k : Nat) (h1 : 1 ≤ k) (h2 : k ≤ l.length) :
    kthLargest l k ∈ l := by
  have hperm := List.perm_insertionSort (fun a b : ℚ => b ≤ a) l
  have hlen : (List.insertionSort (fun a b : ℚ => b ≤ a) l).length = l.length :=
    hperm.length_eq
  have hk : k - 1 < (List.insertionSort (fun a b : ℚ => b ≤ a) l).length := by
    omega
  unfold kthLargest
  rw [List.drop_eq_getElem_cons hk, List.headD_cons]
  exact hperm.mem_iff.mp (List.getElem_mem hk)

/-- C5: at a generation step with `top_k = some k`, the last-position logits
are first divided by the temperature; with `k` clamped to the vocabulary
size, every scaled logit strictly below the `min k vocab`-th largest scaled
logit is masked to negative infinity while boundary ties stay eligible; and
after softmax normalization exactly the entries whose scaled logit is at
least that threshold carry non-zero probability.  Stated for every
exponential `expF` that is positive — the only property of `exp` this
depends on. -/
theorem topk_softmax_support (model : List Nat → List ℚ) (expF : ℚ → ℚ)
    (τ : ℚ) (k : Nat) (ctx : List Nat)
    (hk : 1 ≤ k) (hne : model ctx ≠ []) (hpos : ∀ x, 0 < expF x) :
    List.Forall₂ (fun p x => p ≠ 0 ↔
        kthLargest ((model ctx).map (fun z => z / τ)) (min k (model ctx).length) ≤ x)
      (stepProbs model expF τ (some k) ctx)
      ((model ctx).map (fun z => z / τ)) := by
  set scaled := (model ctx).map (fun z => z / τ) with hscaled
  have hslen : scaled.length = (model ctx).length := by
    rw [hscaled, List.length_map]
  set kk := min k (model ctx).length with hkk
  have hml : 1 ≤ (model ctx).length := by
    cases hm : model ctx with
    | nil => exact absurd hm hne
    | cons a l => simp
  have hkk1 : 1 ≤ kk := by omega
  have hkk2 : kk ≤ scaled.length := by omega
  set thresh := kthLargest scaled kk with hthresh
  have hmem : thresh ∈ scaled := kthLargest_mem scaled kk hkk1 hkk2
  have hstep : stepProbs model expF τ (some k) ctx
      = softmaxQ expF
          (scaled.map (fun x => if x < thresh then XLogit.ninf else XLogit.fin x)) := by
    simp only [stepProbs, maskTopK, ← hscaled, hslen, ← hkk, ← hthresh]
  rw [hstep]
  simp only [softmaxQ, List.map_map]
  rw [List.forall₂_map_left_iff, List.forall₂_same]
  intro x hx
  have hden_pos :
      0 < (scaled.map ((XLogit.expo expF) ∘
            (fun x => if x < thresh then XLogit.ninf else XLogit.fin x))).sum := by
    have hmem2 : expF thresh ∈ scaled.map ((XLogit.expo expF) ∘
        (fun x => if x < thresh then XLogit.ninf else XLogit.fin x)) := by
      have h3 := List.mem_map_of_mem
        ((XLogit.expo expF) ∘ (fun x => if x < thresh then XLogit.ninf else XLogit.fin x))
        hmem
      simpa [Function.comp, lt_irrefl, XLogit.expo] using h3
    have hnn : ∀ y ∈ scaled.map ((XLogit.expo expF) ∘
        (fun x => if x < thresh then XLogit.ninf else XLogit.fin x)), 0 ≤ y := by
      intro y hy
      simp only [List.mem_map, Function.comp] at hy
      obtain ⟨z, _, rfl⟩ := hy
      by_cases hz : z < thresh
      · simp [hz, XLogit.expo]
      · simpa [hz, XLogit.expo] using le_of_lt (hpos z)
    exact lt_of_lt_of_le (hpos thresh) (List.single_le_sum hnn _ hmem2)
  simp only [Function.comp]
  by_cases hlt : x < thresh
  · simp only [if_pos hlt, XLogit.expo, zero_div]
    constructor
    · intro hcon
      exact absurd rfl hcon
    · intro hle
      exact absurd hle (not_le.mpr hlt)
  · have hge : thresh ≤ x := not_lt.mp hlt
    simp only [if_neg hlt, XLogit.expo]
    constructor
    · intro _
      exact hge
    · intro _
      exact div_ne_zero (ne_of_gt (hpos x)) (ne_of_gt hden_pos)

/-- Witness for C5: logits `[3, 1, 2]`, temperature 1, `top_k = 2`, constant
exponential 1 — the probabilities are `[1/2, 0, 1/2]`, non-zero exactly at
the two scaled logits `≥ 2`, the second largest. -/
theorem topk_softmax_support_witness :
    List.Forall₂ (fun p x => p ≠ 0 ↔
        kthLargest ((([3, 1, 2] : List ℚ)).map (fun z => z / 1))
            (min 2 ([3, 1, 2] : List ℚ).length) ≤ x)
      (stepProbs (fun _ => [3, 1, 2]) (fun _ => 1) 1 (some 2) [])
      ((([3, 1, 2] : List ℚ)).map (fun z => z / 1)) :=
  topk_softmax_support (fun _ => [3, 1, 2]) (fun _ => 1) 1 2 []
    (by decide) (by decide) (fun x => by norm_num)

/-- C3: the truncation trigger compares the original prompt length `T`
against `max_seq_length`.  For every executed step `i` (computing position
`T + i`): if `T ≤ max_seq_length` the scorer receives the full generated
sequence so far, `sequence[0 : T+i]`, regardless of its current size; if
`T > max_seq_length` it receives only the last `max_seq_length` tokens of
`sequence[0 : T+i]`. -/
theorem truncation_uses_prompt_length (model : List Nat → List ℚ) (expF : ℚ → ℚ)
    (sampler : Nat → List ℚ → Nat) (idx : List Nat) (mnt msl : Int) (τ : ℚ)
    (tk eos : Option Nat) (out : List Nat) (tr : List (List Nat)) (i : Nat)
    (hmsl : 0 < msl)
    (hrun : generateT model expF sampler idx mnt msl τ tk eos = Except.ok (out, tr))
    (hi : i < tr.length) :
    ((idx.length : Int) ≤ msl → tr[i]? = some (out.take (idx.length + i))) ∧
    (msl < (idx.length : Int) →
      tr[i]? = some ((out.take (idx.length + i)).drop (idx.length + i - msl.toNat))) := by
  have h0 : ¬ mnt < 0 := by
    intro hlt
    rw [generateT, if_pos hlt] at hrun
    exact absurd hrun (by simp)
  rw [generateT, if_neg h0] at hrun
  have hpr := Except.ok.inj hrun
  have ho : out = (genLoop model expF sampler idx.length msl τ tk eos mnt.toNat idx).1 := by
    rw [hpr]
  have ht : tr = (genLoop model expF sampler idx.length msl τ tk eos mnt.toNat idx).2 := by
    rw [hpr]
  subst ho ht
  have tre := genLoop_trace_eq model expF sampler idx.length msl τ tk eos mnt.toNat idx i hi
  obtain ⟨tl, h1, h2⟩ :=
    genLoop_extends model expF sampler idx.length msl τ tk eos mnt.toNat idx
  have hlen : idx.length + i
      ≤ (genLoop model expF sampler idx.length msl τ tk eos mnt.toNat idx).1.length := by
    rw [h1]
    simp only [List.length_append]
    omega
  constructor
  · intro hle
    rw [tre, condCtx, if_pos hle]
  · intro hgt
    rw [tre, condCtx, if_neg (not_le.mpr hgt), sliceLast, if_pos hmsl,
      List.length_take, Nat.min_eq_left hlen]

/-- Witness for C3 in the truncating branch: prompt `[1, 2, 3, 4]`
(`T = 4`), `max_seq_length = 2`, stub sampler returning 7; the second
scorer call receives `[4, 7]`, the last 2 tokens of `[1, 2, 3, 4, 7]`. -/
theorem truncation_uses_prompt_length_witness :
    ((([1, 2, 3, 4] : List Nat).length : Int) ≤ 2 →
      ([[3, 4], [4, 7]] : List (List Nat))[1]?
        = some (([1, 2, 3, 4, 7, 7] : List Nat).take (([1, 2, 3, 4] : List Nat).length + 1))) ∧
    ((2 : Int) < (([1, 2, 3, 4] : List Nat).length : Int) →
      ([[3, 4], [4, 7]] : List (List Nat))[1]?
        = some ((([1, 2, 3, 4, 7, 7] : List Nat).take
            (([1, 2, 3, 4] : List Nat).length + 1)).drop
              (([1, 2, 3, 4] : List Nat).length + 1 - (2 : Int).toNat))) :=
  truncation_uses_prompt_length (fun _ => [0]) (fun _ => 1) (fun _ _ => 7)
    [1, 2, 3, 4] 2 2 1 none none [1, 2, 3, 4, 7, 7] [[3, 4], [4, 7]] 1
    (by decide) rfl (by decide)

end LitStableLM
